import Mathlib

/-!
Verification of the `tlo` in-process background task orchestrator.

This file shallowly embeds the relevant parts of the repository in Lean 4:

* `src/tlo/utils/cron.py` — the five-field cron expression tokenizer;
* `src/tlo/queue/queue.py` and `src/tlo/queue/queued_item.py` — the three
  queue backings (`SimpleInMemoryQueue`, `MapQueue`, `InMemorySqliteQueue`)
  and the `InsertQtMixin` insertion logic;
* `src/tlo/executor/executor.py` — `LocalExecutor` (`run`, `execute`,
  `stop`, `_cancel_pending_tasks`, `_drain_queue`);
* `src/tlo/task_registry/registry.py` — `InMemoryTaskRegistry`;
* `src/tlo/task_state_store/state_store.py` — `InMemoryTaskStateStore`;
* `src/tlo/orchestrator/orchestrator.py` — `Tlo.submit_task`.

Modelling conventions:

* UTC instants (`datetime`) are modelled as natural numbers; only their
  total order is relevant to the embedded code.
* Python exceptions are modelled with `Except`: a function that can raise
  returns `Except E A`, and a `try/except` block is a `match` on that value.
* `TaskStateRecord` is declared `frozen=True` in the source, so the
  executor's `record.field = value` assignments on it raise
  `dataclasses.FrozenInstanceError`; the record-marking helpers model
  those statements as exactly that error. Other mutable state (dicts,
  queue structures, flags) becomes explicit state passing.
* Python `dict` objects keyed by strings are modelled as functions
  `String → Option V` (or total functions with a default, for
  `collections.defaultdict`).
-/

namespace Tlo

/-! ### Python string helpers

Helpers mirroring the exact Python string operations used by
`src/tlo/utils/cron.py` (ASCII inputs; the repository only feeds cron
expressions through these). Strings are processed as `List Char` so that
every definition is structurally recursive and kernel-evaluable. -/

/-- Worker for `pySplitWhitespace`: `cur` is the current (reversed) run of
non-whitespace characters. -/
def splitWsGo : List Char → List Char → List (List Char)
  | [], cur => if cur = [] then [] else [cur.reverse]
  | c :: rest, cur =>
    if c.isWhitespace then
      if cur = [] then splitWsGo rest [] else cur.reverse :: splitWsGo rest []
    else splitWsGo rest (c :: cur)

/-- Python `str.split()` with no argument: split on runs of whitespace and
drop empty fragments. -/
def pySplitWhitespace (s : List Char) : List (List Char) :=
  splitWsGo s []

/-- Worker for `splitOnSep`. -/
def splitOnSepGo (sep : Char) : List Char → List Char → List (List Char)
  | [], cur => [cur.reverse]
  | c :: rest, cur =>
    if c = sep then cur.reverse :: splitOnSepGo sep rest []
    else splitOnSepGo sep rest (c :: cur)

/-- Python `str.split(sep)` for a one-character separator (empty fragments
are kept, and `"".split(sep) == [""]`). -/
def splitOnSep (sep : Char) (s : List Char) : List (List Char) :=
  splitOnSepGo sep s []

/-- Python `str.isdigit()` for ASCII strings: non-empty and all digits. -/
def pyIsdigit (s : List Char) : Bool :=
  !s.isEmpty && s.all Char.isDigit

/-- Accumulate decimal digits, allowing single underscores between digits
(as Python `int` does). Returns `none` on a malformed tail. -/
def digitsToNat : List Char → Nat → Option Nat
  | [], acc => some acc
  | c :: rest, acc =>
    if c.isDigit then digitsToNat rest (acc * 10 + (c.toNat - 48))
    else if c = '_' then
      match rest with
      | r :: _ => if r.isDigit then digitsToNat rest acc else none
      | [] => none
    else none

/-- Python `int(s)` restricted to the values that can reach the cron code:
an optional leading `+` followed by digits (with optional single
underscores). A leading `-` yields a negative value in Python, which is
never a member of any cron field range, so it is folded into the failure
case (`none`), which the call sites treat identically. -/
def pyInt (s : List Char) : Option Nat :=
  match s with
  | [] => none
  | '+' :: rest =>
    match rest with
    | c :: _ => if c.isDigit then digitsToNat rest 0 else none
    | [] => none
  | c :: _ => if c.isDigit then digitsToNat s 0 else none

/-- Python `range(start, stop, step)` as a list; `none` models the
`ValueError` raised when `step == 0` (negative steps cannot reach this
code: steps come from `isdigit` strings). -/
def pyRange (start stop step : Nat) : Option (List Nat) :=
  if step = 0 then none
  else some (List.range' start ((stop - start + step - 1) / step) step)

/-- Membership-preserving insertion into a sorted duplicate-free list;
used to model Python's `tuple(sorted(set(...)))` incrementally. -/
def sortedInsert (v : Nat) : List Nat → List Nat
  | [] => [v]
  | x :: xs =>
    if v < x then v :: x :: xs
    else if v = x then x :: xs
    else x :: sortedInsert v xs

/-- Insert every element of `vs`. -/
def sortedInsertAll (acc : List Nat) (vs : List Nat) : List Nat :=
  vs.foldl (fun a v => sortedInsert v a) acc

/-- Lookup in a literal string-keyed map (`transform_map`). -/
def strLookup (m : List (List Char × Nat)) (k : List Char) : Option Nat :=
  (m.find? (fun p => p.fst = k)).map Prod.snd

/-! ### `src/tlo/utils/cron.py` -/

/-- `ValueError(f"{expr!r} is not valid cron expression.")` built by
`_invalid_cron_expression`; the payload is the offending expression. -/
inductive CronErr : Type where
  | invalidCron (expr : List Char) : CronErr
deriving DecidableEq, Repr

/-- A contiguous cron field range `tuple(range(lo, hi + 1))` from
`FIELD_RANGES`. -/
def field_range (lo hi : Nat) : List Nat :=
  List.range' lo (hi + 1 - lo)

/-- `FIELD_RANGES["minutes"] = tuple(range(60))`. -/
def minutesRange : List Nat := field_range 0 59

/-- `FIELD_RANGES["hours"] = tuple(range(24))`. -/
def hoursRange : List Nat := field_range 0 23

/-- `FIELD_RANGES["day_of_month"] = tuple(range(1, 32))`. -/
def dayOfMonthRange : List Nat := field_range 1 31

/-- `FIELD_RANGES["month"] = tuple(range(1, 13))`. -/
def monthRange : List Nat := field_range 1 12

/-- `FIELD_RANGES["day_of_week"] = tuple(range(7))`. -/
def dayOfWeekRange : List Nat := field_range 0 6

/-- `DAY_NAME_TO_INDEX`. -/
def DAY_NAME_TO_INDEX : List (List Char × Nat) :=
  [("SUN".toList, 0), ("MON".toList, 1), ("TUE".toList, 2), ("WED".toList, 3),
   ("THU".toList, 4), ("FRI".toList, 5), ("SAT".toList, 6)]

/-- `MONTH_NAME_TO_INDEX`. -/
def MONTH_NAME_TO_INDEX : List (List Char × Nat) :=
  [("JAN".toList, 1), ("FEB".toList, 2), ("MAR".toList, 3), ("APR".toList, 4),
   ("MAY".toList, 5), ("JUN".toList, 6), ("JUL".toList, 7), ("AUG".toList, 8),
   ("SEP".toList, 9), ("OCT".toList, 10), ("NOV".toList, 11), ("DEC".toList, 12)]

/-- `CronSchedule`: the five sorted integer tuples. -/
structure CronSchedule : Type where
  minute : List Nat
  hour : List Nat
  day_of_month : List Nat
  month : List Nat
  day_of_week : List Nat
deriving DecidableEq, Repr

/-- `_expr_to_parts`: split a token into base expression and step. A
malformed split (more than one `/`) raises `ValueError` via tuple
unpacking; a non-digit step raises `_invalid_cron_expression`. -/
def expr_to_parts (expr : List Char) : Except CronErr (List Char × Nat) :=
  if expr.contains '/' then
    match splitOnSep '/' expr with
    | [value_expr, step_expr] =>
      if pyIsdigit step_expr then
        match pyInt step_expr with
        | some n => .ok (value_expr, n)
        | none => .error (.invalidCron expr)
      else .error (.invalidCron expr)
    | _ => .error (.invalidCron expr)
  else .ok (expr, 1)

/-- `_parse_range`: interpret `start-end` with an optional step. Splitting
on `-` must give exactly two pieces (otherwise tuple unpacking raises
`ValueError`); both endpoints go through the transform map, then `int`,
then the membership and ordering checks. -/
def parse_range (value_expr : List Char) (allowed : List Nat) (step_expr : Nat)
    (transform_map : List (List Char × Nat)) : Except CronErr (List Nat) :=
  match splitOnSep '-' value_expr with
  | [start0, end0] =>
    let start1 := match strLookup transform_map start0 with
      | some v => (toString v).toList
      | none => start0
    let end1 := match strLookup transform_map end0 with
      | some v => (toString v).toList
      | none => end0
    match pyInt start1, pyInt end1 with
    | some start_int, some end_int =>
      if start_int ∈ allowed ∧ end_int ∈ allowed then
        if start_int > end_int then .error (.invalidCron value_expr)
        else
          match pyRange start_int (end_int + 1) step_expr with
          | some result =>
            if result = [] then .error (.invalidCron value_expr) else .ok result
          | none => .error (.invalidCron value_expr)
      else .error (.invalidCron value_expr)
    | _, _ => .error (.invalidCron value_expr)
  | _ => .error (.invalidCron value_expr)

/-- `_parse_part`: interpret a single cron token. The source's
`if "-" in value_expr and (result := _parse_range(...))` is modelled as a
direct call: `_parse_range` raises instead of returning an empty tuple, so
the walrus truthiness test never fails on a returned value. -/
def parse_part (part : List Char) (allowed : List Nat)
    (transform_map : List (List Char × Nat)) : Except CronErr (List Nat) :=
  match expr_to_parts part with
  | .error e => .error e
  | .ok (value_expr0, step_expr) =>
    if step_expr ≥ allowed.length then .error (.invalidCron part)
    else
      let value_expr := match strLookup transform_map value_expr0 with
        | some v => (toString v).toList
        | none => value_expr0
      if pyIsdigit value_expr then
        if step_expr ≠ 1 then .error (.invalidCron part)
        else
          match pyInt value_expr with
          | some v =>
            if v ∈ allowed then .ok [v] else .error (.invalidCron part)
          | none => .error (.invalidCron part)
      else if value_expr = "*".toList then
        match pyRange (allowed.headD 0) (allowed.getLastD 0 + 1) step_expr with
        | some result => .ok result
        | none => .error (.invalidCron part)
      else if value_expr.contains '-' then
        parse_range value_expr allowed step_expr transform_map
      else .error (.invalidCron part)

/-- Accumulator loop of `_parse_expression`: `result.update(values)` per
comma-separated part (the set is kept as a sorted duplicate-free list),
any `ValueError` re-raised as invalid for the whole field. -/
def parse_expression_go (field : List Char) (allowed : List Nat)
    (transform_map : List (List Char × Nat)) :
    List (List Char) → List Nat → Except CronErr (List Nat)
  | [], acc => .ok acc
  | p :: rest, acc =>
    match parse_part p allowed transform_map with
    | .ok values =>
      parse_expression_go field allowed transform_map rest (sortedInsertAll acc values)
    | .error _ => .error (.invalidCron field)

/-- `_parse_expression`: expand a comma-delimited field into
`tuple(sorted(set(...)))`, modelled by accumulating into a sorted
duplicate-free list. -/
def parse_expression (expr : List Char) (allowed : List Nat)
    (transform_map : List (List Char × Nat) := []) : Except CronErr (List Nat) :=
  parse_expression_go expr allowed transform_map (splitOnSep ',' expr) []

/-- `parse_cron`: split on whitespace, require five fields, parse each
field; any `ValueError` from a field is re-raised as invalid for the whole
expression. -/
def parse_cron (expression : String) : Except CronErr CronSchedule :=
  match pySplitWhitespace expression.toList with
  | [minutes, hours, day_of_month, month, day_of_week] =>
    match parse_expression minutes minutesRange,
          parse_expression hours hoursRange,
          parse_expression day_of_month dayOfMonthRange,
          parse_expression month monthRange MONTH_NAME_TO_INDEX,
          parse_expression day_of_week dayOfWeekRange DAY_NAME_TO_INDEX with
    | .ok m, .ok h, .ok dom, .ok mon, .ok dow =>
      .ok (CronSchedule.mk m h dom mon dow)
    | _, _, _, _, _ => .error (.invalidCron expression.toList)
  | _ => .error (.invalidCron expression.toList)

example : parse_cron "0 9 1 * MON" =
    .ok (CronSchedule.mk [0] [9] [1] [1,2,3,4,5,6,7,8,9,10,11,12] [1]) := by rfl

example : parse_cron "*/15 0-12/6 1,15 1-3 1-5/2" =
    .ok (CronSchedule.mk [0, 15, 30, 45] [0, 6, 12] [1, 15] [1, 2, 3] [1, 3, 5]) := by rfl

/-! ### Lemmas about the cron parser -/

theorem mem_sortedInsert {y v : Nat} : ∀ {l : List Nat},
    y ∈ sortedInsert v l → y = v ∨ y ∈ l := by
  intro l
  induction l with
  | nil => intro h; simp [sortedInsert] at h; exact Or.inl h
  | cons x xs ih =>
    intro h
    simp only [sortedInsert] at h
    by_cases h1 : v < x
    · simp [h1] at h
      rcases h with h | h | h
      · exact Or.inl h
      · exact Or.inr (by simp [h])
      · exact Or.inr (by simp [h])
    · by_cases h2 : v = x
      · simp [h1, h2] at h
        rcases h with h | h
        · exact Or.inl (h.trans h2.symm)
        · exact Or.inr (by simp [h])
      · simp [h1, h2] at h
        rcases h with h | h
        · exact Or.inr (by simp [h])
        · rcases ih h with h | h
          · exact Or.inl h
          · exact Or.inr (by simp [h])

theorem sorted_sortedInsert (v : Nat) : ∀ (l : List Nat),
    List.Sorted (· < ·) l → List.Sorted (· < ·) (sortedInsert v l) := by
  intro l
  induction l with
  | nil => intro _; simp [sortedInsert]
  | cons x xs ih =>
    intro h
    rw [List.sorted_cons] at h
    obtain ⟨hx, hxs⟩ := h
    simp only [sortedInsert]
    by_cases h1 : v < x
    · simp only [if_pos h1]
      rw [List.sorted_cons]
      refine ⟨?_, List.sorted_cons.mpr ⟨hx, hxs⟩⟩
      intro b hb
      rcases List.mem_cons.mp hb with rfl | hb
      · exact h1
      · exact h1.trans (hx b hb)
    · by_cases h2 : v = x
      · simp only [if_neg h1, if_pos h2]
        exact List.sorted_cons.mpr ⟨hx, hxs⟩
      · simp only [if_neg h1, if_neg h2]
        rw [List.sorted_cons]
        refine ⟨?_, ih hxs⟩
        intro b hb
        rcases mem_sortedInsert hb with rfl | hb
        · omega
        · exact hx b hb

theorem mem_sortedInsertAll {y : Nat} : ∀ {vs acc : List Nat},
    y ∈ sortedInsertAll acc vs → y ∈ acc ∨ y ∈ vs := by
  intro vs
  induction vs with
  | nil => intro acc h; exact Or.inl h
  | cons v vs ih =>
    intro acc h
    simp only [sortedInsertAll, List.foldl_cons] at h
    rcases ih h with h | h
    · rcases mem_sortedInsert h with rfl | h
      · exact Or.inr (by simp)
      · exact Or.inl h
    · exact Or.inr (by simp [h])

theorem sorted_sortedInsertAll : ∀ (vs acc : List Nat),
    List.Sorted (· < ·) acc → List.Sorted (· < ·) (sortedInsertAll acc vs) := by
  intro vs
  induction vs with
  | nil => intro acc h; exact h
  | cons v vs ih =>
    intro acc h
    simp only [sortedInsertAll, List.foldl_cons]
    exact ih _ (sorted_sortedInsert v acc h)

/-- Bounds for the values produced by the Python `range(a, b + 1, step)`
call sites of the cron parser. -/
theorem pyRange_bounds {a b step : Nat} {l : List Nat}
    (hr : pyRange a (b + 1) step = some l) (hab : a ≤ b) :
    ∀ v ∈ l, a ≤ v ∧ v ≤ b := by
  intro v hv
  unfold pyRange at hr
  by_cases hs : step = 0
  · simp [hs] at hr
  · simp only [if_neg hs] at hr
    set cnt := (b + 1 - a + step - 1) / step with hcnt
    obtain rfl : List.range' a cnt step = l := by simpa using hr
    obtain ⟨i, hi, rfl⟩ := List.mem_range'.mp hv
    constructor
    · omega
    · have h1 : cnt * step ≤ b + 1 - a + step - 1 := Nat.div_mul_le_self _ _
    -- from i < cnt: (i + 1) * step ≤ cnt * step
      have h2 : (i + 1) * step ≤ cnt * step := Nat.mul_le_mul_right step hi
      have h3 : (i + 1) * step = i * step + step := by ring
      have h4 : step * i = i * step := Nat.mul_comm _ _
      omega

/-- head and last of a contiguous field range. -/
theorem field_range_headD (lo hi : Nat) (h : lo ≤ hi) :
    (field_range lo hi).headD 0 = lo := by
  unfold field_range
  have hn : hi + 1 - lo = (hi - lo) + 1 := by omega
  rw [hn, List.range'_succ]
  rfl

theorem range'_getLastD : ∀ (n lo : Nat), (List.range' lo (n + 1)).getLastD 0 = lo + n := by
  intro n
  induction n with
  | zero => intro lo; simp [List.range'_succ]
  | succ k ih =>
    intro lo
    rw [List.range'_succ, List.getLastD_cons]
    have hk := ih (lo + 1)
    rw [List.range'_succ] at hk ⊢
    rw [List.getLastD_cons] at hk ⊢
    omega

theorem field_range_getLastD (lo hi : Nat) (h : lo ≤ hi) :
    (field_range lo hi).getLastD 0 = hi := by
  unfold field_range
  have hn : hi + 1 - lo = (hi - lo) + 1 := by omega
  rw [hn, range'_getLastD]
  omega

theorem mem_field_range {lo hi v : Nat} :
    v ∈ field_range lo hi ↔ lo ≤ v ∧ v ≤ hi := by
  unfold field_range
  rw [List.mem_range'_1]
  omega

/-- Every value produced by `_parse_part` on a contiguous field range lies
in that range. -/
theorem parse_part_bounds {p : List Char} {lo hi : Nat}
    {transform_map : List (List Char × Nat)} {vs : List Nat}
    (hlh : lo ≤ hi)
    (h : parse_part p (field_range lo hi) transform_map = .ok vs) :
    ∀ v ∈ vs, lo ≤ v ∧ v ≤ hi := by
  intro v hv
  unfold parse_part at h
  cases hsplit : expr_to_parts p with
  | error e => rw [hsplit] at h; exact absurd h (by simp)
  | ok pr =>
    obtain ⟨value_expr0, step_expr⟩ := pr
    rw [hsplit] at h
    simp only at h
    by_cases hbig : step_expr ≥ (field_range lo hi).length
    · rw [if_pos hbig] at h; exact absurd h (by simp)
    · rw [if_neg hbig] at h
      set value_expr := (match strLookup transform_map value_expr0 with
        | some v => (toString v).toList
        | none => value_expr0) with hve
      by_cases hdig : pyIsdigit value_expr
      · rw [if_pos hdig] at h
        by_cases hstep : step_expr ≠ 1
        · rw [if_pos hstep] at h; exact absurd h (by simp)
        · rw [if_neg hstep] at h
          cases hint : pyInt value_expr with
          | none => rw [hint] at h; exact absurd h (by simp)
          | some w =>
            rw [hint] at h
            simp only at h
            by_cases hmem : w ∈ field_range lo hi
            · rw [if_pos hmem] at h
              obtain rfl : [w] = vs := by simpa using h
              obtain rfl : v = w := by simpa using hv
              exact mem_field_range.mp hmem
            · rw [if_neg hmem] at h; exact absurd h (by simp)
      · rw [if_neg hdig] at h
        by_cases hstar : value_expr = "*".toList
        · rw [if_pos hstar] at h
          cases hr : pyRange ((field_range lo hi).headD 0)
              ((field_range lo hi).getLastD 0 + 1) step_expr with
          | none => rw [hr] at h; exact absurd h (by simp)
          | some l =>
            rw [hr] at h
            obtain rfl : l = vs := by simpa using h
            rw [field_range_headD lo hi hlh, field_range_getLastD lo hi hlh] at hr
            exact pyRange_bounds hr hlh v hv
        · rw [if_neg hstar] at h
          by_cases hdash : value_expr.contains '-'
          · rw [if_pos hdash] at h
            unfold parse_range at h
            cases hsp : splitOnSep '-' value_expr with
            | nil => rw [hsp] at h; exact absurd h (by simp)
            | cons s0 tl =>
              cases tl with
              | nil => rw [hsp] at h; exact absurd h (by simp)
              | cons e0 tl2 =>
                cases tl2 with
                | cons _ _ => rw [hsp] at h; exact absurd h (by simp)
                | nil =>
                  rw [hsp] at h
                  simp only at h
                  cases hs1 : pyInt (match strLookup transform_map s0 with
                    | some v => (toString v).toList
                    | none => s0) with
                  | none => rw [hs1] at h; exact absurd h (by simp)
                  | some start_int =>
                    cases hs2 : pyInt (match strLookup transform_map e0 with
                      | some v => (toString v).toList
                      | none => e0) with
                    | none => rw [hs1, hs2] at h; exact absurd h (by simp)
                    | some end_int =>
                      rw [hs1, hs2] at h
                      simp only at h
                      by_cases hmem : start_int ∈ field_range lo hi ∧ end_int ∈ field_range lo hi
                      · rw [if_pos hmem] at h
                        by_cases hord : start_int > end_int
                        · rw [if_pos hord] at h; exact absurd h (by simp)
                        · rw [if_neg hord] at h
                          cases hr : pyRange start_int (end_int + 1) step_expr with
                          | none => rw [hr] at h; exact absurd h (by simp)
                          | some result =>
                            rw [hr] at h
                            simp only at h
                            by_cases hres : result = []
                            · rw [if_pos hres] at h; exact absurd h (by simp)
                            · rw [if_neg hres] at h
                              obtain rfl : result = vs := by simpa using h
                              have hb := pyRange_bounds hr (by omega) v hv
                              have h1 := mem_field_range.mp hmem.1
                              have h2 := mem_field_range.mp hmem.2
                              omega
                      · rw [if_neg hmem] at h; exact absurd h (by simp)
          · rw [if_neg hdash] at h; exact absurd h (by simp)

/-- The accumulator loop of `_parse_expression` keeps the set sorted,
duplicate-free and within the field bounds. -/
theorem parse_expression_go_inv {lo hi : Nat}
    {transform_map : List (List Char × Nat)} {field : List Char} :
    ∀ (parts : List (List Char)) (acc out : List Nat),
    lo ≤ hi →
    List.Sorted (· < ·) acc →
    (∀ v ∈ acc, lo ≤ v ∧ v ≤ hi) →
    parse_expression_go field (field_range lo hi) transform_map parts acc = .ok out →
    List.Sorted (· < ·) out ∧ ∀ v ∈ out, lo ≤ v ∧ v ≤ hi := by
  intro parts
  induction parts with
  | nil =>
    intro acc out _ hs hb h
    obtain rfl : acc = out := by simpa [parse_expression_go] using h
    exact ⟨hs, hb⟩
  | cons p rest ih =>
    intro acc out hlh hs hb h
    simp only [parse_expression_go] at h
    cases hp : parse_part p (field_range lo hi) transform_map with
    | error e => rw [hp] at h; exact absurd h (by simp)
    | ok values =>
      rw [hp] at h
      refine ih _ out hlh (sorted_sortedInsertAll values acc hs) ?_ h
      intro v hv
      rcases mem_sortedInsertAll hv with hv | hv
      · exact hb v hv
      · exact parse_part_bounds hlh hp v hv

/-- `_parse_expression` on a contiguous field range yields a sorted
duplicate-free list inside the range. -/
theorem parse_expression_bounds {expr : List Char} {lo hi : Nat}
    {transform_map : List (List Char × Nat)} {out : List Nat}
    (hlh : lo ≤ hi)
    (h : parse_expression expr (field_range lo hi) transform_map = .ok out) :
    List.Sorted (· < ·) out ∧ ∀ v ∈ out, lo ≤ v ∧ v ≤ hi :=
  parse_expression_go_inv _ [] out hlh (by simp) (by simp) h

/-! ### Claim theorems for the cron parser -/

/-- Claim C8: a syntactically invalid five-field cron expression is
rejected by `parse_cron` with the `ValueError` built by
`_invalid_cron_expression` — the error the specification's taxonomy calls
the `ConfigError` kind for malformed cron input. In particular the step-0
expression `*/0 * * * *` is rejected with exactly that error (the zero
step reaches Python's `range(0, 60, 0)`, whose `ValueError` is caught and
re-raised as the standard invalid-cron-expression error), rather than
being accepted or surfacing a different failure. -/
theorem parse_cron_rejects_zero_step :
    parse_cron "*/0 * * * *" = .error (.invalidCron "*/0 * * * *".toList) := by rfl

/-- Claim C10: every schedule accepted by `parse_cron` has strictly
increasing, duplicate-free fields, each value lying in the field's
allowed range (minute 0–59, hour 0–23, day-of-month 1–31, month 1–12,
day-of-week 0–6), for every combination of wildcards, steps, ranges,
lists and symbolic names. -/
theorem parse_cron_fields_sorted_in_range (s : String) (sched : CronSchedule)
    (h : parse_cron s = .ok sched) :
    (List.Sorted (· < ·) sched.minute ∧ sched.minute.Nodup ∧
      ∀ v ∈ sched.minute, v ≤ 59) ∧
    (List.Sorted (· < ·) sched.hour ∧ sched.hour.Nodup ∧
      ∀ v ∈ sched.hour, v ≤ 23) ∧
    (List.Sorted (· < ·) sched.day_of_month ∧ sched.day_of_month.Nodup ∧
      ∀ v ∈ sched.day_of_month, 1 ≤ v ∧ v ≤ 31) ∧
    (List.Sorted (· < ·) sched.month ∧ sched.month.Nodup ∧
      ∀ v ∈ sched.month, 1 ≤ v ∧ v ≤ 12) ∧
    (List.Sorted (· < ·) sched.day_of_week ∧ sched.day_of_week.Nodup ∧
      ∀ v ∈ sched.day_of_week, v ≤ 6) := by
  unfold parse_cron at h
  cases hsplit : pySplitWhitespace s.toList with
  | nil => rw [hsplit] at h; exact absurd h (by simp)
  | cons f1 t1 =>
    cases t1 with
    | nil => rw [hsplit] at h; exact absurd h (by simp)
    | cons f2 t2 =>
      cases t2 with
      | nil => rw [hsplit] at h; exact absurd h (by simp)
      | cons f3 t3 =>
        cases t3 with
        | nil => rw [hsplit] at h; exact absurd h (by simp)
        | cons f4 t4 =>
          cases t4 with
          | nil => rw [hsplit] at h; exact absurd h (by simp)
          | cons f5 t5 =>
            cases t5 with
            | cons _ _ => rw [hsplit] at h; exact absurd h (by simp)
            | nil =>
              rw [hsplit] at h
              simp only at h
              cases hm : parse_expression f1 minutesRange with
              | error e => rw [hm] at h; exact absurd h (by simp)
              | ok m =>
                cases hh : parse_expression f2 hoursRange with
                | error e => rw [hm, hh] at h; exact absurd h (by simp)
                | ok hrs =>
                  cases hdom : parse_expression f3 dayOfMonthRange with
                  | error e => rw [hm, hh, hdom] at h; exact absurd h (by simp)
                  | ok dom =>
                    cases hmon : parse_expression f4 monthRange MONTH_NAME_TO_INDEX with
                    | error e => rw [hm, hh, hdom, hmon] at h; exact absurd h (by simp)
                    | ok mon =>
                      cases hdow : parse_expression f5 dayOfWeekRange DAY_NAME_TO_INDEX with
                      | error e => rw [hm, hh, hdom, hmon, hdow] at h; exact absurd h (by simp)
                      | ok dow =>
                        rw [hm, hh, hdom, hmon, hdow] at h
                        obtain rfl : CronSchedule.mk m hrs dom mon dow = sched := by
                          simpa using h
                        have bm := parse_expression_bounds (by omega) hm
                        have bh := parse_expression_bounds (by omega) hh
                        have bdom := parse_expression_bounds (by omega) hdom
                        have bmon := parse_expression_bounds (by omega) hmon
                        have bdow := parse_expression_bounds (by omega) hdow
                        refine ⟨⟨bm.1, bm.1.nodup, fun v hv => (bm.2 v hv).2⟩,
                          ⟨bh.1, bh.1.nodup, fun v hv => (bh.2 v hv).2⟩,
                          ⟨bdom.1, bdom.1.nodup, fun v hv => bdom.2 v hv⟩,
                          ⟨bmon.1, bmon.1.nodup, fun v hv => bmon.2 v hv⟩,
                          ⟨bdow.1, bdow.1.nodup, fun v hv => (bdow.2 v hv).2⟩⟩

/-- Witness for C10: the theorem applied to the concrete expression
`*/15 0-12/6 1,15 1-3 1-5/2`. -/
theorem parse_cron_fields_sorted_in_range_witness :
    (List.Sorted (· < ·) [0, 15, 30, 45] ∧ List.Nodup [0, 15, 30, 45] ∧
      ∀ v ∈ [0, 15, 30, 45], v ≤ 59) ∧
    (List.Sorted (· < ·) [0, 6, 12] ∧ List.Nodup [0, 6, 12] ∧
      ∀ v ∈ [0, 6, 12], v ≤ 23) ∧
    (List.Sorted (· < ·) [1, 15] ∧ List.Nodup [1, 15] ∧
      ∀ v ∈ [1, 15], 1 ≤ v ∧ v ≤ 31) ∧
    (List.Sorted (· < ·) [1, 2, 3] ∧ List.Nodup [1, 2, 3] ∧
      ∀ v ∈ [1, 2, 3], 1 ≤ v ∧ v ≤ 12) ∧
    (List.Sorted (· < ·) [1, 3, 5] ∧ List.Nodup [1, 3, 5] ∧
      ∀ v ∈ [1, 3, 5], v ≤ 6) :=
  parse_cron_fields_sorted_in_range "*/15 0-12/6 1,15 1-3 1-5/2"
    (CronSchedule.mk [0, 15, 30, 45] [0, 6, 12] [1, 15] [1, 2, 3] [1, 3, 5]) (by rfl)

/-! ### `src/tlo/queue/queued_item.py` and `src/tlo/queue/queue.py`

`QueuedTask` payload fields (`args`, `kwargs`) are carried as opaque
strings: the queue logic never inspects them. `datetime` instants are
natural numbers. The `__post_init__` normalisation of integer etas to
datetimes is the identity in this model, since both are instants. -/

/-- `TLO_DEFAULT_QUEUE_NAME` from `src/tlo/common.py`. -/
def TLO_DEFAULT_QUEUE_NAME : String := "default"

/-- `QueuedTask` (`src/tlo/queue/queued_item.py`). In the source snapshot
the `id` field has no default factory; `mkQueuedTaskDataclass` below
models the dataclass constructor's required-argument behaviour. -/
structure QueuedTask : Type where
  id : String
  task_name : String
  args : String := ""
  kwargs : String := ""
  queue_name : String := TLO_DEFAULT_QUEUE_NAME
  enqueued_at : Nat := 0
  eta : Option Nat := none
  exclusive : Bool := false
deriving DecidableEq, Repr

/-- The `QueueEmpty` error kind. The concrete classes
(`NoTaskInQueueError` raised by `queue.py`, `TloQueueEmptyError` caught by
`executor.py`) are absent from `src/tlo/errors.py`; modelled from the
spec's error taxonomy as a single `QueueEmpty` kind, which both names
denote. -/
inductive QueueErr : Type where
  | noTaskInQueue (queue_name : String) : QueueErr
deriving DecidableEq, Repr

/-- Eligibility of a queued task at instant `now`: `eta` absent or
`eta ≤ now`. -/
def eligibleB (now : Nat) (qt : QueuedTask) : Bool :=
  match qt.eta with
  | none => true
  | some e => decide (e ≤ now)

/-- The dispatch order key implicit in `InsertQtMixin` and in the SQLite
`ORDER BY (eta IS NULL) ASC-first, eta ASC`: no-eta tasks sort before
eta-bearing tasks, eta-bearing tasks sort by ascending eta. -/
def etaKeyLe (a b : QueuedTask) : Bool :=
  match a.eta, b.eta with
  | none, _ => true
  | some _, none => false
  | some e, some f => decide (e ≤ f)

/-- `InsertQtMixin._enqueue_without_eta`: insert before the first existing
task that has an eta; append if none does. -/
def enqueue_without_eta (task : QueuedTask) : List QueuedTask → List QueuedTask
  | [] => [task]
  | existing :: rest =>
    if existing.eta = none then existing :: enqueue_without_eta task rest
    else task :: existing :: rest

/-- `InsertQtMixin._enqueue_with_eta`: skip no-eta tasks and tasks whose
eta is `≤ task.eta`; insert before the first task with a strictly later
eta; append otherwise. `te` is the value asserted by the source to be
`task.eta`. -/
def enqueue_with_eta (task : QueuedTask) (te : Nat) : List QueuedTask → List QueuedTask
  | [] => [task]
  | existing :: rest =>
    match existing.eta with
    | none => existing :: enqueue_with_eta task te rest
    | some e =>
      if e ≤ te then existing :: enqueue_with_eta task te rest
      else task :: existing :: rest

/-- `SimpleInMemoryQueue.enqueue`: append to an empty queue, otherwise
dispatch on the presence of an eta. -/
def simple_enqueue (q : List QueuedTask) (qt : QueuedTask) : List QueuedTask :=
  match q, qt.eta with
  | [], _ => [qt]
  | _, none => enqueue_without_eta qt q
  | _, some te => enqueue_with_eta qt te q

/-- A `SimpleInMemoryQueue` built by a sequence of `enqueue` calls from
the initial empty list. -/
def simple_build (ts : List QueuedTask) : List QueuedTask :=
  ts.foldl simple_enqueue []

/-- `SimpleInMemoryQueue._next_task`: scan the tasks of the requested
queue in stored order; the first one decides — returned if its eta is
absent or due, otherwise the scan breaks and yields nothing. -/
def simple_next_task (q : List QueuedTask) (queue_name : String) (now : Nat) :
    Option QueuedTask :=
  match q.filter (fun qt => qt.queue_name = queue_name) with
  | [] => none
  | qt :: _ =>
    match qt.eta with
    | none => some qt
    | some e => if e > now then none else some qt

/-- `SimpleInMemoryQueue.dequeue`: return the next eligible task and
`list.remove` it (first structurally equal element), or raise
`NoTaskInQueueError`. -/
def simple_dequeue (q : List QueuedTask) (queue_name : String) (now : Nat) :
    Except QueueErr (QueuedTask × List QueuedTask) :=
  match simple_next_task q queue_name now with
  | some qt => .ok (qt, q.erase qt)
  | none => .error (.noTaskInQueue queue_name)

/-- `SimpleInMemoryQueue.total_tasks` / `__len__`. -/
def simple_total_tasks (q : List QueuedTask) : Nat := q.length

/-- `MapQueue` state: a `defaultdict(deque)`, i.e. a total function from
queue names to (possibly empty) deques. -/
def MapQueueState : Type := String → List QueuedTask

/-- `MapQueue.enqueue`: insert into the deque of the task's queue name
using the same `InsertQtMixin` logic. -/
def map_enqueue (m : MapQueueState) (qt : QueuedTask) : MapQueueState :=
  fun n =>
    if n = qt.queue_name then
      match m qt.queue_name, qt.eta with
      | [], _ => [qt]
      | queue, none => enqueue_without_eta qt queue
      | queue, some te => enqueue_with_eta qt te queue
    else m n

/-- A `MapQueue` built by a sequence of `enqueue` calls from the initial
empty map. -/
def map_build (ts : List QueuedTask) : MapQueueState :=
  ts.foldl map_enqueue (fun _ => [])

/-- `MapQueue.dequeue`: pop the front of the requested deque when it is
eligible, otherwise raise `NoTaskInQueueError`. -/
def map_dequeue (m : MapQueueState) (queue_name : String) (now : Nat) :
    Except QueueErr (QueuedTask × MapQueueState) :=
  match m queue_name with
  | [] => .error (.noTaskInQueue queue_name)
  | qt :: rest =>
    match qt.eta with
    | none => .ok (qt, fun n => if n = queue_name then rest else m n)
    | some e =>
      if e ≤ now then .ok (qt, fun n => if n = queue_name then rest else m n)
      else .error (.noTaskInQueue queue_name)

/-- `InMemorySqliteQueue.enqueue`: `INSERT OR REPLACE` — the conflicting
row (same primary key `id`) is deleted and the new row appended in rowid
order. -/
def sqlite_enqueue (rows : List QueuedTask) (qt : QueuedTask) : List QueuedTask :=
  (rows.filter (fun r => r.id ≠ qt.id)) ++ [qt]

/-- The scan of `SELECT ... WHERE queue_name = ? AND (eta IS NULL OR
eta ≤ ?) ORDER BY (CASE WHEN eta IS NULL THEN 0 ELSE 1 END), eta ASC
LIMIT 1`: the leftmost row minimal for the eta key among the eligible
rows of the queue. ISO-8601 UTC timestamp strings compare like the
instants they denote, so the SQL string comparison is instant
comparison. Ties on the key keep the earlier row (the tie-break is
unspecified in SQL; any choice satisfies the stated ordering contract). -/
def sqlite_select (rows : List QueuedTask) (queue_name : String) (now : Nat) :
    Option QueuedTask :=
  (rows.filter (fun r => r.queue_name = queue_name ∧ eligibleB now r)).foldl
    (fun best r =>
      match best with
      | none => some r
      | some b => if etaKeyLe b r then some b else some r)
    none

/-- `InMemorySqliteQueue.dequeue`: select the next eligible row, then
`DELETE FROM queue WHERE id = ?`. -/
def sqlite_dequeue (rows : List QueuedTask) (queue_name : String) (now : Nat) :
    Except QueueErr (QueuedTask × List QueuedTask) :=
  match sqlite_select rows queue_name now with
  | some qt => .ok (qt, rows.filter (fun r => r.id ≠ qt.id))
  | none => .error (.noTaskInQueue queue_name)

/-- `InMemorySqliteQueue.total_tasks` / `__len__`: `SELECT COUNT(*)`. -/
def sqlite_total_tasks (rows : List QueuedTask) : Nat := rows.length

/-! ### Lemmas about the queue backings -/

/-- The dispatch-order relation as a proposition. -/
def qtLe (a b : QueuedTask) : Prop := etaKeyLe a b = true

instance : DecidableRel qtLe :=
  fun _ _ => by unfold qtLe; infer_instance

/-- A queue list sorted for the dispatch order. -/
def OrderedQ (q : List QueuedTask) : Prop := List.Pairwise qtLe q

instance (q : List QueuedTask) : Decidable (OrderedQ q) := by
  unfold OrderedQ
  infer_instance

theorem etaKeyLe_refl (a : QueuedTask) : etaKeyLe a a = true := by
  unfold etaKeyLe
  cases a.eta <;> simp

theorem etaKeyLe_trans {a b c : QueuedTask} (h1 : etaKeyLe a b = true)
    (h2 : etaKeyLe b c = true) : etaKeyLe a c = true := by
  unfold etaKeyLe at h1 h2 ⊢
  cases ha : a.eta <;> cases hb : b.eta <;> cases hc : c.eta <;>
    first
    | (simp_all; omega)
    | simp_all

theorem etaKeyLe_total (a b : QueuedTask) :
    etaKeyLe a b = true ∨ etaKeyLe b a = true := by
  unfold etaKeyLe
  cases a.eta <;> cases b.eta <;>
    first
    | (simp; omega)
    | simp

theorem mem_enqueue_without_eta {x task : QueuedTask} : ∀ {q : List QueuedTask},
    x ∈ enqueue_without_eta task q → x = task ∨ x ∈ q := by
  intro q
  induction q with
  | nil => intro h; simp [enqueue_without_eta] at h; exact Or.inl h
  | cons existing rest ih =>
    intro h
    simp only [enqueue_without_eta] at h
    by_cases he : existing.eta = none
    · rw [if_pos he] at h
      rcases List.mem_cons.mp h with rfl | h
      · exact Or.inr (by simp)
      · rcases ih h with h | h
        · exact Or.inl h
        · exact Or.inr (by simp [h])
    · rw [if_neg he] at h
      rcases List.mem_cons.mp h with rfl | h
      · exact Or.inl rfl
      · exact Or.inr h

theorem mem_enqueue_with_eta {x task : QueuedTask} {te : Nat} : ∀ {q : List QueuedTask},
    x ∈ enqueue_with_eta task te q → x = task ∨ x ∈ q := by
  intro q
  induction q with
  | nil => intro h; simp [enqueue_with_eta] at h; exact Or.inl h
  | cons existing rest ih =>
    intro h
    cases he : existing.eta with
    | none =>
      simp only [enqueue_with_eta, he] at h
      rcases List.mem_cons.mp h with rfl | h
      · exact Or.inr (by simp)
      · rcases ih h with h | h
        · exact Or.inl h
        · exact Or.inr (by simp [h])
    | some e =>
      simp only [enqueue_with_eta, he] at h
      by_cases hle : e ≤ te
      · rw [if_pos hle] at h
        rcases List.mem_cons.mp h with rfl | h
        · exact Or.inr (by simp)
        · rcases ih h with h | h
          · exact Or.inl h
          · exact Or.inr (by simp [h])
      · rw [if_neg hle] at h
        rcases List.mem_cons.mp h with rfl | h
        · exact Or.inl rfl
        · exact Or.inr h

theorem ordered_enqueue_without_eta {task : QueuedTask} (ht : task.eta = none) :
    ∀ {q : List QueuedTask}, OrderedQ q → OrderedQ (enqueue_without_eta task q) := by
  intro q
  induction q with
  | nil => intro _; simp [enqueue_without_eta, OrderedQ]
  | cons existing rest ih =>
    intro h
    rw [OrderedQ, List.pairwise_cons] at h
    obtain ⟨hex, hrest⟩ := h
    simp only [enqueue_without_eta]
    by_cases he : existing.eta = none
    · rw [if_pos he]
      rw [OrderedQ, List.pairwise_cons]
      refine ⟨?_, ih hrest⟩
      intro u hu
      rcases mem_enqueue_without_eta hu with rfl | hu
      · unfold qtLe etaKeyLe; rw [he]
      · exact hex u hu
    · rw [if_neg he]
      rw [OrderedQ, List.pairwise_cons]
      refine ⟨?_, List.pairwise_cons.mpr ⟨hex, hrest⟩⟩
      intro u _
      unfold qtLe etaKeyLe; rw [ht]

theorem ordered_enqueue_with_eta {task : QueuedTask} {te : Nat} (ht : task.eta = some te) :
    ∀ {q : List QueuedTask}, OrderedQ q → OrderedQ (enqueue_with_eta task te q) := by
  intro q
  induction q with
  | nil => intro _; simp [enqueue_with_eta, OrderedQ]
  | cons existing rest ih =>
    intro h
    rw [OrderedQ, List.pairwise_cons] at h
    obtain ⟨hex, hrest⟩ := h
    cases he : existing.eta with
    | none =>
      simp only [enqueue_with_eta, he]
      rw [OrderedQ, List.pairwise_cons]
      refine ⟨?_, ih hrest⟩
      intro u hu
      rcases mem_enqueue_with_eta hu with rfl | hu
      · unfold qtLe etaKeyLe; rw [he]
      · exact hex u hu
    | some e =>
      simp only [enqueue_with_eta, he]
      by_cases hle : e ≤ te
      · rw [if_pos hle]
        rw [OrderedQ, List.pairwise_cons]
        refine ⟨?_, ih hrest⟩
        intro u hu
        rcases mem_enqueue_with_eta hu with rfl | hu
        · unfold qtLe etaKeyLe; rw [he, ht]; simpa using hle
        · exact hex u hu
      · rw [if_neg hle]
        rw [OrderedQ, List.pairwise_cons]
        constructor
        · intro u hu
          rcases List.mem_cons.mp hu with rfl | hu
          · unfold qtLe etaKeyLe; rw [ht, he]; simp; omega
          · have h1 : qtLe existing u := hex u hu
            have h2 : etaKeyLe task existing = true := by
              unfold etaKeyLe; rw [ht, he]; simp; omega
            exact etaKeyLe_trans h2 h1
        · exact List.pairwise_cons.mpr ⟨hex, hrest⟩

theorem ordered_simple_enqueue {q : List QueuedTask} (qt : QueuedTask)
    (h : OrderedQ q) : OrderedQ (simple_enqueue q qt) := by
  unfold simple_enqueue
  cases q with
  | nil => cases qt.eta <;> simp [OrderedQ]
  | cons x xs =>
    cases he : qt.eta with
    | none => exact ordered_enqueue_without_eta he h
    | some te => exact ordered_enqueue_with_eta he h

theorem ordered_simple_build (ts : List QueuedTask) : OrderedQ (simple_build ts) := by
  unfold simple_build
  have hgen : ∀ (acc : List QueuedTask), OrderedQ acc → OrderedQ (ts.foldl simple_enqueue acc) := by
    induction ts with
    | nil => intro acc h; exact h
    | cons t rest ih =>
      intro acc h
      exact ih _ (ordered_simple_enqueue t h)
  exact hgen [] (by simp [OrderedQ])

/-- Specification of `_next_task` on a dispatch-sorted queue: the
returned task is an eligible member of the requested queue, minimal for
the dispatch order among its eligible tasks; and `None` means no
eligible task exists there. -/
theorem simple_next_task_spec (q : List QueuedTask) (qn : String) (now : Nat)
    (hq : OrderedQ q) :
    (∀ t, simple_next_task q qn now = some t →
      t ∈ q ∧ t.queue_name = qn ∧ eligibleB now t = true ∧
      ∀ u ∈ q, u.queue_name = qn → eligibleB now u = true → etaKeyLe t u = true) ∧
    (simple_next_task q qn now = none →
      ∀ u ∈ q, u.queue_name = qn → eligibleB now u = false) := by
  have hsub : OrderedQ (q.filter (fun qt => qt.queue_name = qn)) :=
    List.Pairwise.sublist (List.filter_sublist q) hq
  cases hfl : q.filter (fun qt => qt.queue_name = qn) with
  | nil =>
    constructor
    · intro t ht
      simp only [simple_next_task, hfl] at ht
      simp at ht
    · intro _ u hu hun
      have : u ∈ q.filter (fun qt => qt.queue_name = qn) :=
        List.mem_filter.mpr ⟨hu, by simpa using hun⟩
      rw [hfl] at this
      exact absurd this (by simp)
  | cons qt tl =>
    rw [hfl] at hsub
    rw [OrderedQ, List.pairwise_cons] at hsub
    obtain ⟨hmin, _⟩ := hsub
    have hqt_mem : qt ∈ q ∧ qt.queue_name = qn := by
      have : qt ∈ q.filter (fun x => x.queue_name = qn) := by rw [hfl]; simp
      have h2 := List.mem_filter.mp this
      exact ⟨h2.1, by simpa using h2.2⟩
    have hany : ∀ u ∈ q, u.queue_name = qn → u = qt ∨ u ∈ tl := by
      intro u hu hun
      have : u ∈ q.filter (fun x => x.queue_name = qn) :=
        List.mem_filter.mpr ⟨hu, by simpa using hun⟩
      rw [hfl] at this
      exact List.mem_cons.mp this
    cases he : qt.eta with
    | none =>
      constructor
      · intro t ht
        simp only [simple_next_task, hfl, he] at ht
        obtain rfl : qt = t := by simpa using ht
        refine ⟨hqt_mem.1, hqt_mem.2, by simp [eligibleB, he], ?_⟩
        intro u hu hun _
        rcases hany u hu hun with rfl | hu2
        · exact etaKeyLe_refl u
        · exact hmin u hu2
      · intro hcontra
        simp only [simple_next_task, hfl, he] at hcontra
        simp at hcontra
    | some e =>
      by_cases hnow : e > now
      · constructor
        · intro t ht
          simp only [simple_next_task, hfl, he, if_pos hnow] at ht
          simp at ht
        · intro _ u hu hun
          rcases hany u hu hun with rfl | hu2
          · simp only [eligibleB, he]; simp; omega
          · have h1 : etaKeyLe qt u = true := hmin u hu2
            unfold etaKeyLe at h1
            rw [he] at h1
            cases hue : u.eta with
            | none => rw [hue] at h1; simp at h1
            | some f =>
              rw [hue] at h1
              simp at h1
              simp only [eligibleB, hue]
              simp
              omega
      · constructor
        · intro t ht
          simp only [simple_next_task, hfl, he, if_neg hnow] at ht
          obtain rfl : qt = t := by simpa using ht
          refine ⟨hqt_mem.1, hqt_mem.2, by simp only [eligibleB, he]; simp; omega, ?_⟩
          intro u hu hun _
          rcases hany u hu hun with rfl | hu2
          · exact etaKeyLe_refl u
          · exact hmin u hu2
        · intro hcontra
          simp only [simple_next_task, hfl, he, if_neg hnow] at hcontra
          simp at hcontra

theorem ineligible_of_keyLe {qt u : QueuedTask} {now e : Nat}
    (hq : qt.eta = some e) (hnow : e > now) (hle : etaKeyLe qt u = true) :
    eligibleB now u = false := by
  unfold etaKeyLe at hle
  rw [hq] at hle
  cases hue : u.eta with
  | none => rw [hue] at hle; simp at hle
  | some f =>
    rw [hue] at hle
    simp at hle
    simp only [eligibleB, hue]
    simp
    omega

/-- `MapQueue.enqueue` acts on the task's own deque exactly like
`SimpleInMemoryQueue.enqueue` acts on its list. -/
theorem map_enqueue_apply (m : MapQueueState) (qt : QueuedTask) (n : String) :
    map_enqueue m qt n =
      if n = qt.queue_name then simple_enqueue (m qt.queue_name) qt else m n := by
  cases hq : m qt.queue_name <;> cases he : qt.eta <;>
    simp [map_enqueue, simple_enqueue, hq, he]

theorem ordered_map_build (ts : List QueuedTask) : ∀ n, OrderedQ (map_build ts n) := by
  unfold map_build
  have hgen : ∀ (acc : MapQueueState), (∀ n, OrderedQ (acc n)) →
      ∀ n, OrderedQ ((ts.foldl map_enqueue acc) n) := by
    induction ts with
    | nil => intro acc h; exact h
    | cons t rest ih =>
      intro acc h
      refine ih _ ?_
      intro n
      rw [map_enqueue_apply]
      by_cases hn : n = t.queue_name
      · rw [if_pos hn]; exact ordered_simple_enqueue t (h _)
      · rw [if_neg hn]; exact h n
  exact hgen _ (fun n => by simp [OrderedQ])

/-- The front check of `MapQueue.dequeue` / `MapQueue.peek`: pop
`queue[0]` when the deque is non-empty and its front is eligible. -/
def deque_pop (l : List QueuedTask) (now : Nat) : Option (QueuedTask × List QueuedTask) :=
  match l with
  | [] => none
  | qt :: rest =>
    match qt.eta with
    | none => some (qt, rest)
    | some e => if e ≤ now then some (qt, rest) else none

/-- Specification of the deque front check on a sorted deque: the popped
front is eligible and minimal for the dispatch order; no pop means no
task of the deque is eligible. -/
theorem deque_pop_spec (l : List QueuedTask) (now : Nat) (hl : OrderedQ l) :
    (∀ t rest, deque_pop l now = some (t, rest) →
      t ∈ l ∧ eligibleB now t = true ∧ rest = l.tail ∧
      ∀ u ∈ l, eligibleB now u = true → etaKeyLe t u = true) ∧
    (deque_pop l now = none → ∀ u ∈ l, eligibleB now u = false) := by
  cases l with
  | nil =>
    constructor
    · intro t rest ht; simp [deque_pop] at ht
    · intro _ u hu; exact absurd hu (by simp)
  | cons qt rest0 =>
    rw [OrderedQ, List.pairwise_cons] at hl
    obtain ⟨hmin, _⟩ := hl
    cases he : qt.eta with
    | none =>
      constructor
      · intro t rest ht
        simp only [deque_pop, he] at ht
        obtain ⟨h1, h2⟩ : qt = t ∧ rest0 = rest := by
          constructor
          · exact (Prod.mk.injEq _ _ _ _ ▸ (Option.some.inj ht)).1
          · exact (Prod.mk.injEq _ _ _ _ ▸ (Option.some.inj ht)).2
        subst h1
        subst h2
        refine ⟨by simp, by simp [eligibleB, he], rfl, ?_⟩
        intro u hu _
        rcases List.mem_cons.mp hu with rfl | hu
        · exact etaKeyLe_refl u
        · exact hmin u hu
      · intro ht
        simp only [deque_pop, he] at ht
        simp at ht
    | some e =>
      by_cases hnow : e ≤ now
      · constructor
        · intro t rest ht
          simp only [deque_pop, he, if_pos hnow] at ht
          obtain ⟨h1, h2⟩ : qt = t ∧ rest0 = rest := by
            constructor
            · exact (Prod.mk.injEq _ _ _ _ ▸ (Option.some.inj ht)).1
            · exact (Prod.mk.injEq _ _ _ _ ▸ (Option.some.inj ht)).2
          subst h1
          subst h2
          refine ⟨by simp, by simp [eligibleB, he]; omega, rfl, ?_⟩
          intro u hu _
          rcases List.mem_cons.mp hu with rfl | hu
          · exact etaKeyLe_refl u
          · exact hmin u hu
        · intro ht
          simp only [deque_pop, he, if_pos hnow] at ht
          simp at ht
      · constructor
        · intro t rest ht
          simp only [deque_pop, he, if_neg hnow] at ht
          simp at ht
        · intro _ u hu
          rcases List.mem_cons.mp hu with rfl | hu
          · simp [eligibleB, he]; omega
          · exact ineligible_of_keyLe he (by omega) (hmin u hu)

/-- `MapQueue.dequeue`, restated through the front check. -/
theorem map_dequeue_eq (m : MapQueueState) (qn : String) (now : Nat) :
    map_dequeue m qn now =
      match deque_pop (m qn) now with
      | some (qt, rest) => .ok (qt, fun n => if n = qn then rest else m n)
      | none => .error (.noTaskInQueue qn) := by
  cases hq : m qn with
  | nil => simp [map_dequeue, deque_pop, hq]
  | cons qt rest =>
    cases he : qt.eta with
    | none => simp [map_dequeue, deque_pop, hq, he]
    | some e =>
      by_cases hnow : e ≤ now
      · simp [map_dequeue, deque_pop, hq, he, if_pos hnow]
      · simp [map_dequeue, deque_pop, hq, he, if_neg hnow]

/-- The fold used by `sqlite_select` keeps the leftmost key-minimal row. -/
theorem sqlite_fold_spec : ∀ (l : List QueuedTask) (b : QueuedTask),
    ∃ c, l.foldl
        (fun best r =>
          match best with
          | none => some r
          | some b => if etaKeyLe b r then some b else some r)
        (some b) = some c ∧
      (c = b ∨ c ∈ l) ∧ etaKeyLe c b = true ∧ ∀ u ∈ l, etaKeyLe c u = true := by
  intro l
  induction l with
  | nil =>
    intro b
    exact ⟨b, rfl, Or.inl rfl, etaKeyLe_refl b, by simp⟩
  | cons r rest ih =>
    intro b
    by_cases hbr : etaKeyLe b r = true
    · obtain ⟨c, hc, hmem, hcb, hall⟩ := ih b
      refine ⟨c, ?_, ?_, hcb, ?_⟩
      · simpa [hbr] using hc
      · rcases hmem with rfl | hmem
        · exact Or.inl rfl
        · exact Or.inr (by simp [hmem])
      · intro u hu
        rcases List.mem_cons.mp hu with rfl | hu
        · exact etaKeyLe_trans hcb hbr
        · exact hall u hu
    · obtain ⟨c, hc, hmem, hcr, hall⟩ := ih r
      have hrb : etaKeyLe r b = true := by
        rcases etaKeyLe_total b r with h | h
        · exact absurd h hbr
        · exact h
      refine ⟨c, ?_, ?_, etaKeyLe_trans hcr hrb, ?_⟩
      · simpa [hbr] using hc
      · rcases hmem with rfl | hmem
        · exact Or.inr (by simp)
        · exact Or.inr (by simp [hmem])
      · intro u hu
        rcases List.mem_cons.mp hu with rfl | hu
        · exact hcr
        · exact hall u hu

/-- Specification of the SQLite dispatch query: the selected row is an
eligible row of the requested queue, minimal for the
`(eta IS NULL) DESC, eta ASC` order; no row means no eligible row. -/
theorem sqlite_select_spec (rows : List QueuedTask) (qn : String) (now : Nat) :
    (∀ t, sqlite_select rows qn now = some t →
      t ∈ rows ∧ t.queue_name = qn ∧ eligibleB now t = true ∧
      ∀ u ∈ rows, u.queue_name = qn → eligibleB now u = true → etaKeyLe t u = true) ∧
    (sqlite_select rows qn now = none →
      ∀ u ∈ rows, u.queue_name = qn → eligibleB now u = false) := by
  have hmemfl : ∀ u, u ∈ rows.filter (fun r => r.queue_name = qn ∧ eligibleB now r) ↔
      (u ∈ rows ∧ (u.queue_name = qn ∧ eligibleB now u = true)) := by
    intro u
    rw [List.mem_filter]
    constructor
    · intro ⟨h1, h2⟩
      refine ⟨h1, ?_⟩
      simpa using h2
    · intro ⟨h1, h2⟩
      refine ⟨h1, ?_⟩
      simpa using h2
  unfold sqlite_select
  cases hfl : rows.filter (fun r => r.queue_name = qn ∧ eligibleB now r) with
  | nil =>
    constructor
    · intro t ht; simp at ht
    · intro _ u hu hun
      by_cases hel : eligibleB now u = true
      · have : u ∈ rows.filter (fun r => r.queue_name = qn ∧ eligibleB now r) :=
          (hmemfl u).mpr ⟨hu, hun, hel⟩
        rw [hfl] at this
        exact absurd this (by simp)
      · simpa using hel
  | cons h0 tl =>
    obtain ⟨c, hc, hmem, hcb, hall⟩ := sqlite_fold_spec tl h0
    have hI : (h0 :: tl).foldl
        (fun best r =>
          match best with
          | none => some r
          | some b => if etaKeyLe b r then some b else some r)
        none = some c := by
      simpa using hc
    constructor
    · intro t ht
      rw [hI] at ht
      have hct : c = t := by simpa using ht
      subst hct
      have hcfl : c ∈ rows.filter (fun r => r.queue_name = qn ∧ eligibleB now r) := by
        rw [hfl]
        rcases hmem with rfl | hmem
        · simp
        · simp [hmem]
      obtain ⟨h1, h2, h3⟩ := (hmemfl c).mp hcfl
      refine ⟨h1, h2, h3, ?_⟩
      intro u hu hun hel
      have : u ∈ rows.filter (fun r => r.queue_name = qn ∧ eligibleB now r) :=
        (hmemfl u).mpr ⟨hu, hun, hel⟩
      rw [hfl] at this
      rcases List.mem_cons.mp this with rfl | hu2
      · exact hcb
      · exact hall u hu2
    · intro ht
      rw [hI] at ht
      exact absurd ht (by simp)

/-! ### Claim theorems for the queue backings -/

/-- Claim C2: for every queue backing and queue name, `dequeue` returns a
task only if its eta is absent or `eta ≤ now`; the returned task is
minimal for the dispatch order (absent-eta tasks before present-eta
tasks, present-eta tasks by ascending eta) among the eligible tasks of
that queue, so consecutive dequeues at one instant come out in ascending
dispatch order; and `dequeue` fails only when no eligible task exists in
that queue, so a future-eta task never blocks an eligible one. The
in-memory backings are taken in any state reachable by `enqueue` calls
from empty; the SQLite backing's `SELECT` needs no insertion invariant
and is taken on arbitrary rows. -/
theorem queue_dequeue_eligibility_and_order
    (ts rows : List QueuedTask) (qn : String) (now : Nat) :
    (∀ t q2, simple_dequeue (simple_build ts) qn now = .ok (t, q2) →
      t ∈ simple_build ts ∧ t.queue_name = qn ∧ eligibleB now t = true ∧
      (∀ u ∈ simple_build ts, u.queue_name = qn → eligibleB now u = true →
        etaKeyLe t u = true) ∧
      (∀ t2 q3, simple_dequeue q2 qn now = .ok (t2, q3) → etaKeyLe t t2 = true)) ∧
    (∀ e, simple_dequeue (simple_build ts) qn now = .error e →
      ∀ u ∈ simple_build ts, u.queue_name = qn → eligibleB now u = false) ∧
    (∀ t m2, map_dequeue (map_build ts) qn now = .ok (t, m2) →
      t ∈ map_build ts qn ∧ eligibleB now t = true ∧
      ∀ u ∈ map_build ts qn, eligibleB now u = true → etaKeyLe t u = true) ∧
    (∀ e, map_dequeue (map_build ts) qn now = .error e →
      ∀ u ∈ map_build ts qn, eligibleB now u = false) ∧
    (∀ t rows2, sqlite_dequeue rows qn now = .ok (t, rows2) →
      t ∈ rows ∧ t.queue_name = qn ∧ eligibleB now t = true ∧
      ∀ u ∈ rows, u.queue_name = qn → eligibleB now u = true → etaKeyLe t u = true) ∧
    (∀ e, sqlite_dequeue rows qn now = .error e →
      ∀ u ∈ rows, u.queue_name = qn → eligibleB now u = false) := by
  have hq := ordered_simple_build ts
  have hspec := simple_next_task_spec (simple_build ts) qn now hq
  refine ⟨?_, ?_, ?_, ?_, ?_, ?_⟩
  · intro t q2 h
    cases hnext : simple_next_task (simple_build ts) qn now with
    | none => simp only [simple_dequeue, hnext] at h; simp at h
    | some t0 =>
      simp only [simple_dequeue, hnext] at h
      simp only [Except.ok.injEq, Prod.mk.injEq] at h
      obtain ⟨rfl, rfl⟩ := h
      obtain ⟨h1, h2, h3, h4⟩ := hspec.1 t0 hnext
      refine ⟨h1, h2, h3, h4, ?_⟩
      intro t2 q3 h5
      have hq2 : OrderedQ ((simple_build ts).erase t0) :=
        List.Pairwise.sublist (List.erase_sublist _ _) hq
      have hspec2 := simple_next_task_spec ((simple_build ts).erase t0) qn now hq2
      cases hnext2 : simple_next_task ((simple_build ts).erase t0) qn now with
      | none => simp only [simple_dequeue, hnext2] at h5; simp at h5
      | some t1 =>
        simp only [simple_dequeue, hnext2] at h5
        simp only [Except.ok.injEq, Prod.mk.injEq] at h5
        obtain ⟨rfl, rfl⟩ := h5
        obtain ⟨g1, g2, g3, _⟩ := hspec2.1 t1 hnext2
        exact h4 t1 (List.mem_of_mem_erase g1) g2 g3
  · intro e h
    cases hnext : simple_next_task (simple_build ts) qn now with
    | some t0 => simp only [simple_dequeue, hnext] at h; simp at h
    | none => exact hspec.2 hnext
  · intro t m2 h
    have hm := ordered_map_build ts qn
    have hpop := deque_pop_spec (map_build ts qn) now hm
    rw [map_dequeue_eq] at h
    cases hp : deque_pop (map_build ts qn) now with
    | none => rw [hp] at h; simp at h
    | some pr =>
      obtain ⟨t0, rest⟩ := pr
      rw [hp] at h
      simp only [Except.ok.injEq, Prod.mk.injEq] at h
      obtain ⟨rfl, _⟩ := h
      obtain ⟨g1, g2, _, g4⟩ := hpop.1 t0 rest hp
      exact ⟨g1, g2, g4⟩
  · intro e h
    have hm := ordered_map_build ts qn
    have hpop := deque_pop_spec (map_build ts qn) now hm
    rw [map_dequeue_eq] at h
    cases hp : deque_pop (map_build ts qn) now with
    | some pr => obtain ⟨t0, rest⟩ := pr; rw [hp] at h; simp at h
    | none => exact hpop.2 hp
  · intro t rows2 h
    have hsel := sqlite_select_spec rows qn now
    cases hs : sqlite_select rows qn now with
    | none => simp only [sqlite_dequeue, hs] at h; simp at h
    | some t0 =>
      simp only [sqlite_dequeue, hs] at h
      simp only [Except.ok.injEq, Prod.mk.injEq] at h
      obtain ⟨rfl, _⟩ := h
      exact hsel.1 t0 hs
  · intro e h
    have hsel := sqlite_select_spec rows qn now
    cases hs : sqlite_select rows qn now with
    | some t0 => simp only [sqlite_dequeue, hs] at h; simp at h
    | none => exact hsel.2 hs

/-- An immediately eligible task (scenario S5). -/
def qtImmediate : QueuedTask := { id := "i", task_name := "noop" }

/-- A task whose eta is already due at instant 10 (scenario S5). -/
def qtDue : QueuedTask := { id := "d", task_name := "noop", eta := some 1 }

/-- A task whose eta is still in the future at instant 10 (scenario S5). -/
def qtFuture : QueuedTask := { id := "f", task_name := "noop", eta := some 100 }

/-- Witness for C2: the S5 scenario (`future`, `immediate`, `due`
enqueued in that order) dequeued at instant 10 returns the no-eta task
first, then the due task, in ascending dispatch order. -/
theorem queue_dequeue_eligibility_and_order_witness :
    qtImmediate ∈ simple_build [qtFuture, qtImmediate, qtDue] ∧
    eligibleB 10 qtImmediate = true ∧
    etaKeyLe qtImmediate qtDue = true := by
  have h := (queue_dequeue_eligibility_and_order
      [qtFuture, qtImmediate, qtDue] [] "default" 10).1
      qtImmediate ((simple_build [qtFuture, qtImmediate, qtDue]).erase qtImmediate)
      (by rfl)
  exact ⟨h.1, h.2.2.1, h.2.2.2.2 qtDue
    (((simple_build [qtFuture, qtImmediate, qtDue]).erase qtImmediate).erase qtDue)
    (by rfl)⟩

theorem length_enqueue_without_eta (t : QueuedTask) : ∀ (q : List QueuedTask),
    (enqueue_without_eta t q).length = q.length + 1 := by
  intro q
  induction q with
  | nil => rfl
  | cons x xs ih =>
    by_cases hx : x.eta = none
    · simp only [enqueue_without_eta, if_pos hx, List.length_cons, ih]
    · simp only [enqueue_without_eta, if_neg hx, List.length_cons]

theorem length_enqueue_with_eta (t : QueuedTask) (te : Nat) : ∀ (q : List QueuedTask),
    (enqueue_with_eta t te q).length = q.length + 1 := by
  intro q
  induction q with
  | nil => rfl
  | cons x xs ih =>
    cases hx : x.eta with
    | none => simp only [enqueue_with_eta, hx, List.length_cons, ih]
    | some e =>
      by_cases hle : e ≤ te
      · simp only [enqueue_with_eta, hx, if_pos hle, List.length_cons, ih]
      · simp only [enqueue_with_eta, hx, if_neg hle, List.length_cons]

theorem length_simple_enqueue (q : List QueuedTask) (t : QueuedTask) :
    (simple_enqueue q t).length = q.length + 1 := by
  unfold simple_enqueue
  cases q with
  | nil => cases t.eta <;> rfl
  | cons x xs =>
    cases ht : t.eta with
    | none => exact length_enqueue_without_eta t _
    | some te => exact length_enqueue_with_eta t te _

theorem sqlite_filter_unchanged {rows : List QueuedTask} {tid : String}
    (h : tid ∉ rows.map QueuedTask.id) :
    rows.filter (fun r => r.id ≠ tid) = rows := by
  induction rows with
  | nil => rfl
  | cons r rest ih =>
    simp only [List.map_cons, List.mem_cons] at h
    push_neg at h
    obtain ⟨h1, h2⟩ := h
    rw [List.filter_cons]
    rw [if_pos (by simpa using fun hc => h1 hc.symm)]
    rw [ih h2]

theorem sqlite_enqueue_length_of_mem : ∀ (rows : List QueuedTask) (t : QueuedTask),
    (rows.map QueuedTask.id).Nodup → t.id ∈ rows.map QueuedTask.id →
    (sqlite_enqueue rows t).length = rows.length := by
  intro rows
  induction rows with
  | nil => intro t _ hmem; exact absurd hmem (by simp)
  | cons r rest ih =>
    intro t hnd hmem
    simp only [List.map_cons, List.nodup_cons] at hnd
    obtain ⟨hr, hnd⟩ := hnd
    unfold sqlite_enqueue
    rw [List.filter_cons]
    by_cases hid : r.id = t.id
    · rw [if_neg (by simpa using hid)]
      have hnot : t.id ∉ rest.map QueuedTask.id := by rw [← hid]; exact hr
      rw [sqlite_filter_unchanged hnot]
      simp
    · rw [if_pos (by simpa using hid)]
      have hmem2 : t.id ∈ rest.map QueuedTask.id := by
        rcases List.mem_cons.mp hmem with h | h
        · exact absurd h.symm hid
        · exact h
      have := ih t hnd hmem2
      unfold sqlite_enqueue at this
      simp only [List.length_append, List.length_cons] at this ⊢
      omega

/-- First task of the C7 duplicate-id scenario. -/
def qtDupFirst : QueuedTask := { id := "a", task_name := "first" }

/-- Second task of the C7 duplicate-id scenario, re-using the id. -/
def qtDupSecond : QueuedTask := { id := "a", task_name := "second" }

/-- Counterexample to C7 as stated: `SimpleInMemoryQueue.enqueue` has no
id-based replacement — re-enqueueing id `"a"` leaves two entries, so the
total task count grows from 1 to 2 instead of staying 1. -/
theorem simple_enqueue_duplicate_id_grows :
    qtDupFirst.id = qtDupSecond.id ∧
    simple_total_tasks (simple_build [qtDupFirst]) = 1 ∧
    simple_total_tasks (simple_build [qtDupFirst, qtDupSecond]) = 2 :=
  ⟨rfl, rfl, rfl⟩

/-- Claim C7 (amended): only the SQLite backing's `enqueue` is idempotent
by id — `INSERT OR REPLACE` leaves exactly the new record for that id and
keeps the total count unchanged when the id was already present — while
the in-memory backings (`SimpleInMemoryQueue`, and `MapQueue` on the
task's deque) always insert a new entry, growing the count by one even
for an already-present id. -/
theorem enqueue_idempotent_only_sqlite :
    (∀ (rows : List QueuedTask) (t : QueuedTask),
      (sqlite_enqueue rows t).filter (fun r => r.id = t.id) = [t]) ∧
    (∀ (rows : List QueuedTask) (t : QueuedTask),
      (rows.map QueuedTask.id).Nodup → t.id ∈ rows.map QueuedTask.id →
      sqlite_total_tasks (sqlite_enqueue rows t) = sqlite_total_tasks rows) ∧
    (∀ (q : List QueuedTask) (t : QueuedTask),
      simple_total_tasks (simple_enqueue q t) = simple_total_tasks q + 1) ∧
    (∀ (m : MapQueueState) (t : QueuedTask),
      (map_enqueue m t t.queue_name).length = (m t.queue_name).length + 1) := by
  refine ⟨?_, sqlite_enqueue_length_of_mem, length_simple_enqueue, ?_⟩
  · intro rows t
    unfold sqlite_enqueue
    rw [List.filter_append]
    have h1 : (rows.filter (fun r => r.id ≠ t.id)).filter (fun r => r.id = t.id) = [] := by
      rw [List.filter_eq_nil_iff]
      intro a ha
      have := (List.mem_filter.mp ha).2
      simpa using this
    rw [h1]
    simp
  · intro m t
    rw [map_enqueue_apply]
    rw [if_pos rfl]
    exact length_simple_enqueue _ _

/-- Witness for the amended C7 theorem at a concrete duplicate-id
re-enqueue. -/
theorem enqueue_idempotent_only_sqlite_witness :
    (sqlite_enqueue [qtDupFirst] qtDupSecond).filter
      (fun r => r.id = qtDupSecond.id) = [qtDupSecond] ∧
    sqlite_total_tasks (sqlite_enqueue [qtDupFirst] qtDupSecond) =
      sqlite_total_tasks [qtDupFirst] ∧
    simple_total_tasks (simple_enqueue [qtDupFirst] qtDupSecond) =
      simple_total_tasks [qtDupFirst] + 1 :=
  ⟨enqueue_idempotent_only_sqlite.1 [qtDupFirst] qtDupSecond,
   enqueue_idempotent_only_sqlite.2.1 [qtDupFirst] qtDupSecond (by decide) (by decide),
   enqueue_idempotent_only_sqlite.2.2.1 [qtDupFirst] qtDupSecond⟩

/-! ### `src/tlo/task_state_store` -/

/-- `TaskStatus` (`src/tlo/task_state_store/common.py`). -/
inductive TaskStatus : Type where
  | Pending : TaskStatus
  | Running : TaskStatus
  | Failed : TaskStatus
  | Succeeded : TaskStatus
  | Cancelled : TaskStatus
deriving DecidableEq, Repr

/-- `TaskStateRecord` (`src/tlo/task_state_store/common.py`). The
dataclass is declared `slots=True, frozen=True`, so attribute assignment
on an instance raises `dataclasses.FrozenInstanceError` (an `Exception`
subclass); the executor record-marking helpers below model their
assignments as exactly that error. The executor, `Tlo.submit_task`
(which additionally passes a `created_by` argument the class does not
declare) and the test suite all nevertheless attempt such mutation; the
consequences are settled in the C1, C3 and C4 claim theorems. `result`
carries the textual value the marking code intends to store. -/
structure TaskStateRecord : Type where
  id : String
  name : String
  created_at : Nat
  started_at : Option Nat := none
  finished_at : Option Nat := none
  status : TaskStatus := .Pending
  result : Option String := none
  failed : Bool := false
deriving DecidableEq, Repr

/-- `InMemoryTaskStateStore` state: a dict from id to record. -/
def TaskStateStore : Type := String → Option TaskStateRecord

/-- The empty store. -/
def store_empty : TaskStateStore := fun _ => none

/-- `InMemoryTaskStateStore.get`: `dict.get`, `None` when absent. -/
def store_get (s : TaskStateStore) (id_ : String) : Option TaskStateRecord := s id_

/-- `InMemoryTaskStateStore.update` (and `create`, which in this source
revision is the same unconditional assignment `self._store[record.id] =
record`). -/
def store_update (s : TaskStateStore) (record : TaskStateRecord) : TaskStateStore :=
  fun k => if k = record.id then some record else s k

/-! ### `src/tlo/task_registry` -/

/-- The semantics of a registered callable: positional and keyword
argument payloads to either a returned value or a raised exception's
textual representation. A callable returning an awaitable is folded into
this map: `execute` awaits it via `asyncio.run`, and an exception raised
while invoking or awaiting is the `.error` case. -/
def TaskFunc : Type := String → String → Except String String

/-- `TaskDef` (`src/tlo/task_registry/task_def.py`); `interval` is the
normalised schedule hint in seconds, `extra` opaque metadata. -/
structure TaskDef : Type where
  name : String
  func : TaskFunc
  interval : Option Nat := none
  extra : List (String × String) := []

/-- `InMemoryTaskRegistry` state: the `_tasks` dict. -/
def TaskRegistry : Type := String → Option TaskDef

/-- The empty registry. -/
def registry_empty : TaskRegistry := fun _ => none

/-- `InMemoryTaskRegistry._register`: the unconditional assignment
`self._tasks[name] = TaskDef(**kwargs)` — no duplicate check, so a second
registration under the same name silently rebinds it. -/
def registry_register (reg : TaskRegistry) (d : TaskDef) : TaskRegistry :=
  fun n => if n = d.name then some d else reg n

/-- `InMemoryTaskRegistry.get_task`: the stored definition, or the
`TaskIsNotRegisteredError` message (an `Exception`, caught by the
executor's blanket `except`). -/
def registry_get_task (reg : TaskRegistry) (name : String) : Except String TaskDef :=
  match reg name with
  | some d => .ok d
  | none => .error ("Task is not registered: " ++ name)

/-! ### `src/tlo/executor/executor.py` — `LocalExecutor` -/

/-- `AbstractExecutor._mark_failed`: its first statement,
`record.finished_at = finished_at`, assigns an attribute of the
`frozen=True` dataclass `TaskStateRecord` and raises
`dataclasses.FrozenInstanceError`; the intended `status = Failed` and
`result = str(exc)` assignments and the `state_store.update(record)`
call are unreachable behind it. -/
def mark_failed (_store : TaskStateStore) (_r : TaskStateRecord) (_exc : String)
    (_now : Nat) : Except String TaskStateStore :=
  .error "FrozenInstanceError: cannot assign to field finished_at"

/-- `AbstractExecutor._mark_succeeded`: like `_mark_failed`, its first
statement `record.finished_at = finished_at` raises
`FrozenInstanceError` on the frozen record; the `Succeeded`/`result`
assignments and the store update are unreachable. -/
def mark_succeeded (_store : TaskStateStore) (_r : TaskStateRecord) (_result : String)
    (_now : Nat) : Except String TaskStateStore :=
  .error "FrozenInstanceError: cannot assign to field finished_at"

/-- `AbstractExecutor._mark_running`: its first statement,
`record.started_at = record.started_at or now`, raises
`FrozenInstanceError` on the frozen record; the `status = Running`
assignment and the store update are unreachable. -/
def mark_running (_store : TaskStateStore) (_r : TaskStateRecord) (_now : Nat) :
    Except String TaskStateStore :=
  .error "FrozenInstanceError: cannot assign to field started_at"

/-- `LocalExecutor.execute`: load the record (`state_store.get` may
yield `None`, in which case `_mark_running` dereferences `None` and the
`AttributeError` propagates, modelled as `.error`); call `_mark_running`
— at executor.py:180, outside the `try` — whose `FrozenInstanceError`
(see `mark_running`) propagates out of `execute` before the registry is
consulted or the callable invoked. The remaining structure of the
source (`try`: resolve in the registry — a missing registration raises
`TaskIsNotRegisteredError` inside the `try` — invoke, `_mark_failed` on
any `Exception`, `_mark_succeeded` on success, with an exception from a
marking call propagating) is kept, although unreachable behind the
raising `_mark_running`. The source also has no locker and no
exclusive-key branch: `task.exclusive` is never read on any path. -/
def execute (reg : TaskRegistry) (now : Nat) (store : TaskStateStore)
    (task : QueuedTask) : Except String TaskStateStore :=
  match store_get store task.id with
  | none => .error "AttributeError: NoneType has no attribute started_at"
  | some record =>
    match mark_running store record now with
    | .error e => .error e
    | .ok store1 =>
      match registry_get_task reg task.task_name with
      | .error exc => mark_failed store1 record exc now
      | .ok task_def =>
        match task_def.func task.args task.kwargs with
        | .error exc => mark_failed store1 record exc now
        | .ok result => mark_succeeded store1 record result now

/-- Worker for `LocalExecutor._drain_queue` over the
`SimpleInMemoryQueue` backing: `queue.dequeue()` (default queue name)
until `TloQueueEmptyError`, executing each task; an unexpected exception
from `execute` propagates. The fuel counts loop iterations; every
successful dequeue removes one task, so `q.length` fuel always
suffices and the `"fuel"` marker is unreachable. -/
def drain_go (reg : TaskRegistry) (now : Nat) :
    Nat → TaskStateStore → List QueuedTask →
    Except String (TaskStateStore × List QueuedTask)
  | fuel, store, q =>
    match simple_dequeue q TLO_DEFAULT_QUEUE_NAME now with
    | .error _ => .ok (store, q)
    | .ok (task, q2) =>
      match execute reg now store task with
      | .error e => .error e
      | .ok store2 =>
        match fuel with
        | 0 => .error "fuel"
        | fuel2 + 1 => drain_go reg now fuel2 store2 q2

/-- `LocalExecutor._drain_queue`. -/
def drain_queue (reg : TaskRegistry) (now : Nat) (store : TaskStateStore)
    (q : List QueuedTask) : Except String (TaskStateStore × List QueuedTask) :=
  drain_go reg now q.length store q

/-- `QueueProtocol.dequeue_any_unsafe`. Modelled from the spec:
`dequeue_any_unsafe(queue_name)` "removes the next task in the queue
*ignoring* eligibility (used only by shutdown cancellation)" — the
method is called by `LocalExecutor._cancel_pending_tasks` but no queue
backing in `src/` defines it. -/
def dequeue_any_unsafe (q : List QueuedTask) (qn : String) :
    Except QueueErr (QueuedTask × List QueuedTask) :=
  match q.find? (fun t => t.queue_name = qn) with
  | some t => .ok (t, q.erase t)
  | none => .error (.noTaskInQueue qn)

/-- The queue names of a `SimpleInMemoryQueue` in first-occurrence order
(Python `dict` insertion order of `total_tasks_by_queue`). -/
def queue_names_in_order (q : List QueuedTask) : List String :=
  q.foldl (fun acc t => if t.queue_name ∈ acc then acc else acc ++ [t.queue_name]) []

/-- `SimpleInMemoryQueue.total_tasks_by_queue`: per-name counts, in
first-occurrence order. -/
def total_tasks_by_queue (q : List QueuedTask) : List (String × Nat) :=
  (queue_names_in_order q).map
    (fun n => (n, (q.filter (fun t => t.queue_name = n)).length))

/-- The record assignments of `_cancel_pending_tasks` for one removed
task (executor.py:243-246): the first, `record.finished_at =
finished_at`, raises `FrozenInstanceError` on the frozen
`TaskStateRecord`; the `status = Cancelled` assignment and the store
update are unreachable. -/
def mark_cancelled (_store : TaskStateStore) (_r : TaskStateRecord) (_now : Nat) :
    Except String TaskStateStore :=
  .error "FrozenInstanceError: cannot assign to field finished_at"

/-- One pass of `LocalExecutor._cancel_pending_tasks` over the snapshot
of `total_tasks_by_queue` entries: skip empty counts, pop one task per
queue ignoring eligibility (`TloQueueEmptyError` is swallowed), then
attempt the `Cancelled` record assignments, whose `FrozenInstanceError`
propagates (see `mark_cancelled`); a missing record instead makes the
attribute assignment dereference `None`, an `AttributeError`. -/
def cancel_pass (now : Nat) :
    List (String × Nat) → TaskStateStore → List QueuedTask → Bool →
    Except String (TaskStateStore × List QueuedTask × Bool)
  | [], store, q, progress => .ok (store, q, progress)
  | (queue_name, count) :: rest, store, q, progress =>
    if count = 0 then cancel_pass now rest store q progress
    else
      match dequeue_any_unsafe q queue_name with
      | .error _ => cancel_pass now rest store q progress
      | .ok (task, q2) =>
        match store_get store task.id with
        | none => .error "AttributeError: NoneType has no attribute finished_at"
        | some record =>
          match mark_cancelled store record now with
          | .error e => .error e
          | .ok store2 => cancel_pass now rest store2 q2 true

/-- The outer `while True` of `_cancel_pending_tasks`: return when the
queues map is empty or a full pass made no progress, else re-compute the
snapshot and run another pass. Every pass that reports progress removed
at least one task, so `q.length` fuel suffices and the `"fuel"` marker
is unreachable. -/
def cancel_loop (now : Nat) :
    Nat → TaskStateStore → List QueuedTask →
    Except String (TaskStateStore × List QueuedTask)
  | fuel, store, q =>
    match total_tasks_by_queue q with
    | [] => .ok (store, q)
    | e0 :: entries =>
      match cancel_pass now (e0 :: entries) store q false with
      | .error e => .error e
      | .ok (store2, q2, progress) =>
        if progress then
          match fuel with
          | 0 => .error "fuel"
          | fuel2 + 1 => cancel_loop now fuel2 store2 q2
        else .ok (store2, q2)

/-- `LocalExecutor._cancel_pending_tasks`. -/
def cancel_pending_tasks (now : Nat) (store : TaskStateStore)
    (q : List QueuedTask) : Except String (TaskStateStore × List QueuedTask) :=
  cancel_loop now q.length store q

/-! ### `LocalExecutor.run` / `stop` / `is_running` -/

/-- The mutable flag state of a `LocalExecutor`. -/
structure LocalExecutorState : Type where
  running : Bool
deriving DecidableEq, Repr

/-- `LocalExecutor.is_running`. -/
def is_running (s : LocalExecutorState) : Bool := s.running

/-- `AbstractExecutor._start`. -/
def executor_start (s : LocalExecutorState) : LocalExecutorState :=
  { s with running := true }

/-- What one iteration of the `run` loop can observe: the three calls
(`scheduler.tick()`, `self._drain_queue()`, `time.sleep(...)`) either all
return — with `stop()` possibly having cleared the flag from another
thread during the iteration — or one of them raises. The scheduler
module itself is absent from `src/`, so tick outcomes are inputs here. -/
inductive IterEvent : Type where
  | ok (stopCalled : Bool) : IterEvent
  | tickRaises : IterEvent
  | drainRaises : IterEvent
  | sleepRaises : IterEvent
deriving DecidableEq, Repr

/-- The `while self._running` loop of `LocalExecutor.run`: returns the
state at the moment control leaves the loop (normally because the flag
was cleared, or because an iteration raised), or `none` when the given
event trace ends with the loop still running (the call has not returned
yet). -/
def run_loop : LocalExecutorState → List IterEvent → Option LocalExecutorState
  | s, evs =>
    if s.running = false then some s
    else
      match evs with
      | [] => none
      | e :: rest =>
        match e with
        | .tickRaises => some s
        | .drainRaises => some s
        | .sleepRaises => some s
        | .ok stopCalled =>
          run_loop (if stopCalled then { s with running := false } else s) rest

/-- `LocalExecutor.run`: `self._start()`, then the loop, and on every
exit path — normal or exceptional — the `finally` block assigns
`self._running = False`. `none` means the call has not returned within
the modelled trace. -/
def executor_run (s : LocalExecutorState) (evs : List IterEvent) :
    Option LocalExecutorState :=
  match run_loop (executor_start s) evs with
  | none => none
  | some sExit => some { sExit with running := false }

/-- `StopBehaviorEnum`. Modelled from the spec: the enum
`{Cancel, Ignore, Drain}` referenced by `executor.py` is absent from
`src/tlo/common.py`. -/
inductive StopBehavior : Type where
  | Cancel : StopBehavior
  | Ignore : StopBehavior
  | Drain : StopBehavior
deriving DecidableEq, Repr

/-- `LocalExecutor._handle_stop_pending` acting on the store and queue:
`cancel_requested` forces `Cancel`, otherwise the settings'
`stop_behavior` dispatches — `Cancel` cancels pending tasks, `Ignore`
returns, `Drain` drains then cancels the remainder. -/
def handle_stop_pending (cancel_requested : Bool) (stop_behavior : StopBehavior)
    (reg : TaskRegistry) (now : Nat) (store : TaskStateStore) (q : List QueuedTask) :
    Except String (TaskStateStore × List QueuedTask) :=
  match (if cancel_requested then StopBehavior.Cancel else stop_behavior) with
  | .Cancel => cancel_pending_tasks now store q
  | .Ignore => .ok (store, q)
  | .Drain =>
    match drain_queue reg now store q with
    | .error e => .error e
    | .ok (store2, q2) => cancel_pending_tasks now store2 q2

/-- `LocalExecutor.stop`: clear the running flag, then handle pending
tasks per the effective behaviour. -/
def executor_stop (s : LocalExecutorState) (cancel : Bool)
    (stop_behavior : StopBehavior) (reg : TaskRegistry) (now : Nat)
    (store : TaskStateStore) (q : List QueuedTask) :
    LocalExecutorState × Except String (TaskStateStore × List QueuedTask) :=
  ({ s with running := false }, handle_stop_pending cancel stop_behavior reg now store q)

/-! ### `src/tlo/orchestrator/orchestrator.py` -/

/-- The `QueuedTask` dataclass constructor as `Tlo.submit_task` calls it:
`id` is a required field with no default or factory in this source
revision, so omitting it raises `TypeError` before anything is built. -/
def mkQueuedTaskDataclass (id? : Option String) (task_name : String)
    (args kwargs : String) (queue_name : String) (now : Nat)
    (eta : Option Nat) (exclusive : Bool) : Except String QueuedTask :=
  match id? with
  | none => .error "TypeError: QueuedTask missing required argument id"
  | some i =>
    .ok { id := i, task_name := task_name, args := args, kwargs := kwargs,
          queue_name := queue_name, enqueued_at := now, eta := eta,
          exclusive := exclusive }

/-- `Tlo.submit_task` over the `SimpleInMemoryQueue` backing: build the
`QueuedTask` (passing `task_name`, `args`, `kwargs`, `queue_name or
default`, `eta`, `exclusive` — and no `id`), create the `Pending` state
record, and enqueue. The source would additionally pass
`created_by=...`, an argument `TaskStateRecord` does not declare — a
second `TypeError` on the same path; the record construction here models
the declared fields. -/
def submit_task (store : TaskStateStore) (q : List QueuedTask) (now : Nat)
    (name : String) (args kwargs : String) (queue_name : Option String)
    (eta : Option Nat) (exclusive : Bool) :
    Except String (TaskStateStore × List QueuedTask) :=
  match mkQueuedTaskDataclass none name args kwargs
      (queue_name.getD TLO_DEFAULT_QUEUE_NAME) now eta exclusive with
  | .error e => .error e
  | .ok qt =>
    let record : TaskStateRecord :=
      { id := qt.id, name := qt.task_name, created_at := qt.enqueued_at }
    .ok (store_update store record, simple_enqueue q qt)

/-! ### Claim theorems for the executor, registry and orchestrator -/

/-- Claim C9: whenever `LocalExecutor.run` returns — the loop exited
because `stop` cleared the flag, or because `scheduler.tick`,
`_drain_queue` or `time.sleep` raised — the `finally` block has set
`_running = False`, so `is_running` reports false on every exit path. -/
theorem run_clears_running_on_every_exit (s : LocalExecutorState)
    (evs : List IterEvent) (s2 : LocalExecutorState)
    (h : executor_run s evs = some s2) : is_running s2 = false := by
  unfold executor_run at h
  cases hl : run_loop (executor_start s) evs with
  | none => rw [hl] at h; exact absurd h (by simp)
  | some sExit =>
    rw [hl] at h
    have : { sExit with running := false } = s2 := by simpa using h
    rw [← this]
    rfl

/-- Witness for C9: a concrete run whose drain raises on the second
iteration still ends with `is_running` false. -/
theorem run_clears_running_on_every_exit_witness :
    is_running { running := false } = false ∧
    executor_run { running := false } [.ok false, .drainRaises] =
      some { running := false } :=
  ⟨run_clears_running_on_every_exit { running := false } [.ok false, .drainRaises]
      { running := false } (by rfl),
   by rfl⟩

/-- First registration bound to the name `"task"` (C6 scenario). -/
def tdFirst : TaskDef := { name := "task", func := fun _ _ => .ok "one" }

/-- Second registration re-using the name `"task"`, distinguishable by
its `interval` (C6 scenario). -/
def tdSecond : TaskDef :=
  { name := "task", func := fun _ _ => .ok "two", interval := some 5 }

/-- Claim C6 divergence: `InMemoryTaskRegistry._register` contains only
`self._tasks[name] = TaskDef(**kwargs)` — registering a second callable
under an already-bound name raises nothing (the function is total) and
silently rebinds the name to the new definition, instead of failing with
`InvalidRegistration` and keeping the first binding (the behaviour
`tests/test_task_registry_duplicate.py` expects; the
`TloInvalidRegistrationError` class it imports does not exist in
`src/tlo/errors.py`). -/
theorem registry_duplicate_registration_overwrites :
    (registry_register (registry_register registry_empty tdFirst) tdSecond) "task"
        = some tdSecond ∧
    tdSecond.interval ≠ tdFirst.interval :=
  ⟨rfl, by decide⟩

/-- Claim C5 divergence: `Tlo.submit_task` constructs
`QueuedTask(task_name=..., args=..., kwargs=..., queue_name=..., eta=...,
exclusive=...)` without an `id`, and `QueuedTask.id` has no default or
generator in this source revision, so every call raises `TypeError`
instead of creating a `Pending` record and enqueueing
(`tests/test_orchestrator.py` submits without ids throughout and expects
success). -/
theorem submit_task_always_raises (store : TaskStateStore) (q : List QueuedTask)
    (now : Nat) (name args kwargs : String) (queue_name : Option String)
    (eta : Option Nat) (exclusive : Bool) :
    submit_task store q now name args kwargs queue_name eta exclusive =
      .error "TypeError: QueuedTask missing required argument id" := rfl

/-- The exclusive task of scenario S4 (C1). -/
def qtExclusiveHeld : QueuedTask :=
  { id := "x1", task_name := "exclusive_task", exclusive := true }

/-- A registry binding `"exclusive_task"` to a callable returning
`"ok"` (C1 scenario). -/
def regExclusive : TaskRegistry :=
  registry_register registry_empty { name := "exclusive_task", func := fun _ _ => .ok "ok" }

/-- The store holding the task's `Pending` record (C1 scenario). -/
def storeExclusive : TaskStateStore :=
  store_update store_empty { id := "x1", name := "exclusive_task", created_at := 0 }

/-- Claim C1 divergence: `LocalExecutor` in this source revision has no
locker dependency at all — `execute` never consults any lock, never
re-enqueues (its signature does not even involve a queue), and never
returns early for an exclusive task: `task.exclusive` is not read on any
path. With the S4 task's exclusive flag set and its `Pending` record
present, a single `execute` does not take the claimed contended-lock
branch (there is none): it enters `_mark_running`, whose attribute
assignment on the frozen `TaskStateRecord` raises `FrozenInstanceError`,
which propagates out of `execute` before any callable resolution; the
record stays `Pending` only because the store is never written, nothing
is requeued with `eta = now + tick_interval`, and no queue length
changes, against the spec and
`tests/test_executor.py::test_execute_requeues_when_lock_contended`. -/
theorem execute_ignores_exclusive_flag :
    qtExclusiveHeld.exclusive = true ∧
    execute regExclusive 5 storeExclusive qtExclusiveHeld =
      .error "FrozenInstanceError: cannot assign to field started_at" ∧
    (store_get storeExclusive "x1").map TaskStateRecord.status =
      some TaskStatus.Pending :=
  ⟨rfl, rfl, rfl⟩

/-- A registry with a raising task `"boom"` and a succeeding task
`"ok_task"` (scenario S2, the C3 failing input). -/
def regBoom : TaskRegistry :=
  registry_register
    (registry_register registry_empty { name := "boom", func := fun _ _ => .error "x" })
    { name := "ok_task", func := fun _ _ => .ok "done" }

/-- The queued invocation of `"boom"`. -/
def qtBoom : QueuedTask := { id := "b1", task_name := "boom" }

/-- A second queued invocation, of `"ok_task"`, behind the failing one. -/
def qtAfter : QueuedTask := { id := "o1", task_name := "ok_task" }

/-- The `Pending` record of `qtBoom`. -/
def recBoom : TaskStateRecord := { id := "b1", name := "boom", created_at := 0 }

/-- The `Pending` record of `qtAfter`. -/
def recAfter : TaskStateRecord := { id := "o1", name := "ok_task", created_at := 0 }

/-- The store holding both `Pending` records. -/
def storeBoom : TaskStateStore :=
  store_update (store_update store_empty recBoom) recAfter

/-- Claim C3 divergence: with its `Pending` record present, executing
the S2 task whose callable raises calls `_mark_running(record)` at
executor.py:180 — outside the `try` — and the attribute assignment on
the `frozen=True` `TaskStateRecord` raises `FrozenInstanceError` there:
the callable is never invoked, the record is never marked `Failed` with
the exception text, and the error propagates out of `execute`;
`_drain_queue` catches only `TloQueueEmptyError`, so the drain aborts at
the first dequeued task and the remaining eligible task is never
executed — against the claim and
`tests/test_executor.py::test_execute_updates_state_failure` /
`tests/test_orchestrator.py::test_engine_continues_after_executor_error`. -/
theorem execute_frozen_record_aborts_drain :
    store_get storeBoom qtBoom.id = some recBoom ∧
    recBoom.status = TaskStatus.Pending ∧
    execute regBoom 7 storeBoom qtBoom =
      .error "FrozenInstanceError: cannot assign to field started_at" ∧
    drain_queue regBoom 7 storeBoom (simple_build [qtBoom, qtAfter]) =
      .error "FrozenInstanceError: cannot assign to field started_at" :=
  ⟨rfl, rfl, rfl, rfl⟩

/-- A future-eta task queued in queue `"A"` (the C4 failing input). -/
def qtQueueA : QueuedTask :=
  { id := "a1", task_name := "noop", queue_name := "A", eta := some 100 }

/-- An immediately eligible task queued in queue `"B"` (the C4 failing input). -/
def qtQueueB : QueuedTask :=
  { id := "b2", task_name := "noop", queue_name := "B" }

/-- The store holding the two `Pending` records (the C4 failing input). -/
def storeAB : TaskStateStore :=
  store_update
    (store_update store_empty { id := "a1", name := "noop", created_at := 0 })
    { id := "b2", name := "noop", created_at := 0 }

/-- Claim C4 divergence: `stop(cancel=True)` clears the running flag
and — whatever the configured behaviour, since `cancel_requested`
forces `Cancel` — dispatches to `_cancel_pending_tasks`, which removes
the first task and then assigns `record.finished_at` (executor.py:244)
on the frozen `TaskStateRecord`: `FrozenInstanceError` is raised on the
very first removed task and propagates out of `stop`. No record is ever
marked `Cancelled`, the queues are not emptied, and the records stay
`Pending` because the store is never written — against the claim and
`tests/test_executor.py::test_stop_cancel_pending_marks_cancelled` /
`test_stop_cancel_pending_clears_all_queues`, which expect all-
`Cancelled` records and `total_tasks == 0`. (`dequeue_any_unsafe` is
legitimately modelled from the spec, being absent from `src/`.) -/
theorem stop_cancel_frozen_record_raises :
    (executor_stop { running := true } true StopBehavior.Drain registry_empty 3
        storeAB [qtQueueA, qtQueueB]).1.running = false ∧
    (executor_stop { running := true } true StopBehavior.Drain registry_empty 3
        storeAB [qtQueueA, qtQueueB]).2 =
      .error "FrozenInstanceError: cannot assign to field finished_at" ∧
    (store_get storeAB "a1").map TaskStateRecord.status = some TaskStatus.Pending ∧
    (store_get storeAB "b2").map TaskStateRecord.status = some TaskStatus.Pending :=
  ⟨rfl, rfl, rfl, rfl⟩

end Tlo
